import Mathlib

/-!
Verification development for the SlipLibUart repository.

Bytes are modelled as natural numbers, byte sequences as `List Nat`.
The codec (`encode`, `decode`, `is_valid`) follows `src/sliplib/slip.py`,
with Python `bytes.replace` modelled by `replace1` (single-byte pattern,
multi-byte replacement) and `replace2` (two-byte pattern, single-byte
replacement, left-to-right and non-overlapping), and `bytes.strip`
modelled by `stripEND`.  A `ProtocolError` carrying a packet is modelled
by `Except.error packet`.
-/

set_option maxRecDepth 10000

/-- Special SLIP byte `END` (0xC0). -/
def END : Nat := 0xc0

/-- Special SLIP byte `ESC` (0xDB). -/
def ESC : Nat := 0xdb

/-- Special SLIP byte `ESC_END` (0xDC). -/
def ESC_END : Nat := 0xdc

/-- Special SLIP byte `ESC_ESC` (0xDD). -/
def ESC_ESC : Nat := 0xdd

/-- Timeout constant `SLIP_FRAME_COMPLETION_TIMEOUT_S = 3` (seconds). -/
def SLIP_FRAME_COMPLETION_TIMEOUT_S : Nat := 3

/-- Python `s.replace(old, new)` for a single-byte pattern `old`. -/
def replace1 (old : Nat) (new : List Nat) : List Nat → List Nat
  | [] => []
  | b :: rest => if b = old then new ++ replace1 old new rest
                 else b :: replace1 old new rest

/-- Python `s.replace(bytes([a, b]), bytes([c]))`: two-byte pattern,
left-to-right, non-overlapping. -/
def replace2 (a b c : Nat) : List Nat → List Nat
  | x :: y :: rest =>
      if x = a ∧ y = b then c :: replace2 a b c rest
      else x :: replace2 a b c (y :: rest)
  | l => l

/-- Python `packet.strip(END)`: drop all leading and trailing `END` bytes. -/
def stripEND (l : List Nat) : List Nat :=
  ((l.dropWhile (· = END)).reverse.dropWhile (· = END)).reverse

/-- Function `encode` from slip.py:
`END + msg.replace(ESC, ESC+ESC_ESC).replace(END, ESC+ESC_END) + END`. -/
def encode (msg : List Nat) : List Nat :=
  [END] ++ replace1 END [ESC, ESC_END] (replace1 ESC [ESC, ESC_ESC] msg) ++ [END]

/-- Python `packet.endswith(ESC)`. -/
def endswithESC (packet : List Nat) : Bool :=
  packet.getLast? == some ESC

/-- Python `re.search(ESC + b'[^' + ESC_END + ESC_ESC + b']', packet)`:
some `ESC` byte is followed by a byte that is neither substitute. -/
def has_bad_esc : List Nat → Bool
  | x :: y :: rest =>
      (x == ESC && y != ESC_END && y != ESC_ESC) || has_bad_esc (y :: rest)
  | _ => false

/-- Function `is_valid` from slip.py:
`not (END in packet or packet.endswith(ESC) or re.search(ESC..., packet))`.
Note that the code tests `END in packet` on the *unstripped* packet. -/
def is_valid (packet : List Nat) : Bool :=
  !(decide (END ∈ packet) || endswithESC packet || has_bad_esc packet)

/-- The unescaping performed by `decode` on a valid packet:
`packet.strip(END).replace(ESC+ESC_END, END).replace(ESC+ESC_ESC, ESC)`. -/
def unescape (packet : List Nat) : List Nat :=
  replace2 ESC ESC_ESC ESC (replace2 ESC ESC_END END (stripEND packet))

/-- Function `decode` from slip.py; `Except.error packet` models
`raise ProtocolError(packet)`. -/
def decode (packet : List Nat) : Except (List Nat) (List Nat) :=
  if is_valid packet then .ok (unescape packet) else .error packet

/-- Spec-side predicate for C7: every `ESC` byte is immediately followed by
`ESC_END` or `ESC_ESC` (in particular a trailing `ESC` is not allowed). -/
def well_escaped : List Nat → Bool
  | [] => true
  | [x] => decide (x ≠ ESC)
  | x :: y :: rest =>
      (decide (x ≠ ESC) || decide (y = ESC_END) || decide (y = ESC_ESC)) &&
        well_escaped (y :: rest)

/-! Codec lemmas -/

theorem replace1_cons (old : Nat) (new : List Nat) (b : Nat) (l : List Nat) :
    replace1 old new (b :: l)
      = if b = old then new ++ replace1 old new l else b :: replace1 old new l := rfl

theorem well_escaped_two (x y : Nat) (rest : List Nat) :
    well_escaped (x :: y :: rest)
      = ((decide (x ≠ ESC) || decide (y = ESC_END) || decide (y = ESC_ESC)) &&
          well_escaped (y :: rest)) := rfl

theorem replace1_END_not_mem (l : List Nat) :
    END ∉ replace1 END [ESC, ESC_END] l := by
  induction l with
  | nil => simp [replace1]
  | cons b rest ih =>
      by_cases hb : b = END
      · simp [replace1, hb, ih]
        decide
      · simp [replace1, hb, ih]
        exact fun h => hb h.symm

theorem well_escaped_cons_ne (c : Nat) (r : List Nat) (hc : c ≠ ESC) :
    well_escaped (c :: r) = well_escaped r := by
  cases r with
  | nil => simp [well_escaped, hc]
  | cons z r' => simp [well_escaped, hc]

theorem well_escaped_stage1 (m : List Nat) :
    well_escaped (replace1 ESC [ESC, ESC_ESC] m) = true := by
  induction m with
  | nil => rfl
  | cons b rest ih =>
      by_cases hb : b = ESC
      · have h1 : well_escaped (ESC_ESC :: replace1 ESC [ESC, ESC_ESC] rest) = true := by
          rw [well_escaped_cons_ne ESC_ESC _ (by decide)]
          exact ih
        simp [replace1, hb, well_escaped, h1]
      · simp only [replace1, if_neg hb]
        rw [well_escaped_cons_ne b _ hb]
        exact ih

theorem well_escaped_stage2 (l : List Nat) (h : well_escaped l = true) :
    well_escaped (replace1 END [ESC, ESC_END] l) = true := by
  induction l using well_escaped.induct with
  | case1 => rfl
  | case2 x =>
      simp only [well_escaped, decide_eq_true_eq] at h
      by_cases hx : x = END
      · rw [replace1_cons, if_pos hx]
        decide
      · rw [replace1_cons, if_neg hx]
        simp [replace1, well_escaped, h]
  | case3 x y rest ih =>
      rw [well_escaped_two] at h
      simp only [Bool.and_eq_true, Bool.or_eq_true, decide_eq_true_eq] at h
      obtain ⟨hxy, h2⟩ := h
      by_cases hx : x = END
      · rw [replace1_cons, if_pos hx]
        simp only [List.cons_append, List.nil_append]
        rw [well_escaped_two, well_escaped_cons_ne ESC_END _ (by decide),
          ih h2, Bool.and_true]
        decide
      · by_cases hxe : x = ESC
        · have hy : y = ESC_END ∨ y = ESC_ESC := by
            rcases hxy with (h1 | h1) | h1
            · exact absurd hxe h1
            · exact Or.inl h1
            · exact Or.inr h1
          have hyEND : y ≠ END := by
            rcases hy with h1 | h1 <;> · rw [h1]; decide
          have hrw : replace1 END [ESC, ESC_END] (y :: rest)
              = y :: replace1 END [ESC, ESC_END] rest := by
            rw [replace1_cons, if_neg hyEND]
          have ih2 := ih h2
          rw [hrw] at ih2
          rw [replace1_cons, if_neg hx, hrw, well_escaped_two, ih2, Bool.and_true]
          rcases hy with h1 | h1 <;> simp [h1]
        · rw [replace1_cons, if_neg hx, well_escaped_cons_ne x _ hxe]
          exact ih h2

theorem well_escaped_append_END (l : List Nat) (h : well_escaped l = true) :
    well_escaped (l ++ [END]) = true := by
  induction l using well_escaped.induct with
  | case1 => decide
  | case2 x =>
      simp [well_escaped] at h
      simp [well_escaped, h]
      decide
  | case3 x y rest ih =>
      simp only [well_escaped, Bool.and_eq_true] at h
      obtain ⟨hxy, h2⟩ := h
      simp only [List.cons_append, well_escaped, Bool.and_eq_true]
      exact ⟨hxy, ih h2⟩

/-- C7 helper: the escaped middle part of an encoded packet. -/
def slipEscape (msg : List Nat) : List Nat :=
  replace1 END [ESC, ESC_END] (replace1 ESC [ESC, ESC_ESC] msg)

/-- C7:  `encode(m)` is `FRAME_END`, then `m` with every `ESCAPE` replaced
by `ESCAPE,ESCAPE_ESCAPE` and then every `FRAME_END` replaced by
`ESCAPE,ESCAPE_END`, then `FRAME_END`; the middle part contains no
`FRAME_END`, and every `ESCAPE` byte of the packet is immediately followed
by one of the two substitutes. -/
theorem C7_encode_structure (m : List Nat) :
    encode m = [END] ++ slipEscape m ++ [END] ∧
    END ∉ slipEscape m ∧
    well_escaped (encode m) = true := by
  refine ⟨rfl, replace1_END_not_mem _, ?_⟩
  have h3 := well_escaped_append_END _ (well_escaped_stage2 _ (well_escaped_stage1 m))
  show well_escaped ([END] ++ slipEscape m ++ [END]) = true
  rw [List.append_assoc, List.singleton_append,
    well_escaped_cons_ne END _ (by decide)]
  exact h3

/-- C1:  The claim `decode(encode(m)) = m` fails on the code: `is_valid`
tests `END in packet` without stripping the leading/trailing delimiters, so
every encoded packet is rejected and `decode` raises `ProtocolError`
(carrying the packet) for every message. -/
theorem C1_decode_encode_always_raises (m : List Nat) :
    decode (encode m) = .error (encode m) := by
  have hv : is_valid (encode m) = false := by
    simp [is_valid, encode]
  simp [decode, hv]

/-- C2:  The claim that `is_valid` accepts sole leading/trailing
`FRAME_END` bytes (hence `is_valid(encode(m))` is true) fails on the code:
`is_valid` rejects every packet containing a `FRAME_END` byte anywhere, so
`is_valid(encode(m))` is false for every message. -/
theorem C2_is_valid_rejects_encoded (m : List Nat) :
    is_valid (encode m) = false := by
  simp [is_valid, encode]

/-! The Driver (slip.py, class Driver)

The scan loop of `Driver.receive` (lines 198-225) is modelled by
`scanByte`/`scanChunk` over a `FrameState`.  Wall-clock time is explicit:
`now` is the (constant) time at which a `receive` call runs, in seconds;
`datetime.now() > self._curr_frame_deadline` becomes
`curr_frame_deadline < now`. -/

structure FrameState where
  curr_frame : Option (List Nat)
  curr_frame_deadline : Nat
  packets : List (List Nat)
deriving DecidableEq

/-- One iteration of the `while` loop in `Driver.receive`. -/
def scanByte (now : Nat) (st : FrameState) (b : Nat) : FrameState :=
  if b = END then
    match st.curr_frame with
    | none =>
        { st with curr_frame_deadline := now + SLIP_FRAME_COMPLETION_TIMEOUT_S,
                  curr_frame := some [] }
    | some f =>
        if st.curr_frame_deadline < now then
          { st with curr_frame_deadline := now + SLIP_FRAME_COMPLETION_TIMEOUT_S,
                    curr_frame := some [] }
        else
          { st with packets := st.packets ++ [f], curr_frame := none }
  else
    match st.curr_frame with
    | none => st
    | some f => { st with curr_frame := some (f ++ [b]) }

/-- The whole scan loop over a byte sequence. -/
def scanChunk (now : Nat) (st : FrameState) (data : List Nat) : FrameState :=
  data.foldl (scanByte now) st

/-- The persistent state of a `Driver` instance. -/
structure DriverState where
  recv_buffer : List Nat
  packets : List (List Nat)
  messages : List (List Nat)
  curr_frame : Option (List Nat)
  curr_frame_deadline : Nat
deriving DecidableEq

/-- Constructor `Driver.__init__`. -/
def freshDriver : DriverState :=
  { recv_buffer := [], packets := [], messages := [],
    curr_frame := none, curr_frame_deadline := 0 }

/-- The `while self._packets:` loop of `Driver.flush`: returns the messages
decoded so far, the packets still queued, and the invalid packet (if any)
whose decoding raised `ProtocolError`. -/
def flushLoop (acc : List (List Nat)) : List (List Nat) →
    List (List Nat) × List (List Nat) × Option (List Nat)
  | [] => (acc, [], none)
  | p :: rest =>
      match decode p with
      | .ok m => flushLoop (acc ++ [m]) rest
      | .error _ => (acc, rest, some p)

/-- Method `Driver.flush`: on a `ProtocolError` the already-decoded messages are
stored in `messages` and the error (carrying the invalid packet)
propagates; otherwise the decoded messages are returned. -/
def Driver.flush (st : DriverState) : Except (List Nat) (List (List Nat)) × DriverState :=
  match flushLoop [] st.packets with
  | (msgs, rest, some bad) => (.error bad, { st with packets := rest, messages := msgs })
  | (msgs, rest, none) => (.ok msgs, { st with packets := rest })

/-- Lines 227-232 of slip.py: a partially received frame is restored into
the receive buffer as `END + partial bytes` (and `_curr_frame` is reset to
`None`); when no frame is open the buffer was fully consumed by the scan
loop and stays empty. -/
def restoreBuf : Option (List Nat) → List Nat
  | some f => END :: f
  | none => []

/-- Method `Driver.receive`: scan the buffered data, restore any in-progress frame
into the buffer as `END + partial bytes`, then `flush`. -/
def Driver.receive (now : Nat) (st : DriverState) (data : List Nat) :
    Except (List Nat) (List (List Nat)) × DriverState :=
  if data = [] then Driver.flush st
  else
    let sc := scanChunk now
      { curr_frame := st.curr_frame, curr_frame_deadline := st.curr_frame_deadline,
        packets := st.packets } (st.recv_buffer ++ data)
    Driver.flush { st with recv_buffer := restoreBuf sc.curr_frame,
                           packets := sc.packets,
                           curr_frame := none,
                           curr_frame_deadline := sc.curr_frame_deadline }

/-- The `Driver.messages` property: returns the stored messages and clears
them (single-use semantics). -/
def Driver.readMessages (st : DriverState) : List (List Nat) × DriverState :=
  (st.messages, { st with messages := [] })

/-- Feeding a byte sequence to a `Driver` one byte per `receive` call, all
at the same time instant; stops at the first `ProtocolError`. -/
def feedBytes (now : Nat) (st : DriverState) : List Nat →
    Except (List Nat) (List (List Nat)) × DriverState
  | [] => (.ok [], st)
  | b :: rest =>
      match Driver.receive now st [b] with
      | (.ok ms, st') =>
          match feedBytes now st' rest with
          | (.ok ms', st'') => (.ok (ms ++ ms'), st'')
          | (.error e, st'') => (.error e, st'')
      | (.error e, st') => (.error e, st')

/-- Modelled from the spec (section 4.2, frame extraction): a `receive`
variant that carries the in-progress frame accumulator and its deadline
forward explicitly in the state (`curr_frame` / `curr_frame_deadline`)
across calls, instead of re-prepending `END` plus the partial bytes to the
receive buffer.  This is the explicit-carry implementation the spec
declares equivalent to the buffer round-trip. -/
def Driver.receiveCarry (now : Nat) (st : DriverState) (data : List Nat) :
    Except (List Nat) (List (List Nat)) × DriverState :=
  let sc := scanChunk now
    { curr_frame := st.curr_frame, curr_frame_deadline := st.curr_frame_deadline,
      packets := st.packets } data
  Driver.flush { st with recv_buffer := [], packets := sc.packets,
                         curr_frame := sc.curr_frame,
                         curr_frame_deadline := sc.curr_frame_deadline }

/-! Scan lemmas -/

theorem scanChunk_nil (now : Nat) (st : FrameState) : scanChunk now st [] = st := rfl

theorem scanChunk_cons (now : Nat) (st : FrameState) (b : Nat) (d : List Nat) :
    scanChunk now st (b :: d) = scanChunk now (scanByte now st b) d := rfl

theorem scanChunk_append (now : Nat) (st : FrameState) (d1 d2 : List Nat) :
    scanChunk now st (d1 ++ d2) = scanChunk now (scanChunk now st d1) d2 :=
  List.foldl_append _ _ _ _

theorem scanByte_nonEND_none (now dl : Nat) (P : List (List Nat)) (b : Nat)
    (hb : b ≠ END) : scanByte now ⟨none, dl, P⟩ b = ⟨none, dl, P⟩ := by
  simp [scanByte, hb]

theorem scanByte_nonEND_some (now dl : Nat) (f : List Nat) (P : List (List Nat))
    (b : Nat) (hb : b ≠ END) :
    scanByte now ⟨some f, dl, P⟩ b = ⟨some (f ++ [b]), dl, P⟩ := by
  simp [scanByte, hb]

theorem scanByte_END_open (now dl : Nat) (P : List (List Nat)) :
    scanByte now ⟨none, dl, P⟩ END
      = ⟨some [], now + SLIP_FRAME_COMPLETION_TIMEOUT_S, P⟩ := by
  simp [scanByte]

theorem scanByte_END_close (now dl : Nat) (f : List Nat) (P : List (List Nat))
    (h : ¬ dl < now) :
    scanByte now ⟨some f, dl, P⟩ END = ⟨none, dl, P ++ [f]⟩ := by
  simp [scanByte, h]

theorem scanByte_END_timeout (now dl : Nat) (f : List Nat) (P : List (List Nat))
    (h : dl < now) :
    scanByte now ⟨some f, dl, P⟩ END
      = ⟨some [], now + SLIP_FRAME_COMPLETION_TIMEOUT_S, P⟩ := by
  simp [scanByte, h]

theorem scanChunk_noEND_some (now : Nat) (f : List Nat) (g : List Nat) (dl : Nat)
    (P : List (List Nat)) (hf : ∀ x ∈ f, x ≠ END) :
    scanChunk now ⟨some g, dl, P⟩ f = ⟨some (g ++ f), dl, P⟩ := by
  induction f generalizing g with
  | nil => simp [scanChunk_nil]
  | cons b f' ih =>
      have hb : b ≠ END := hf b (List.mem_cons_self _ _)
      rw [scanChunk_cons, scanByte_nonEND_some now dl g P b hb,
        ih (g ++ [b]) (fun x hx => hf x (List.mem_cons_of_mem _ hx))]
      simp

theorem scanChunk_restore (now : Nat) (f rest : List Nat) (dl : Nat)
    (P : List (List Nat)) (hf : ∀ x ∈ f, x ≠ END) :
    scanChunk now ⟨none, dl, P⟩ (END :: f ++ rest)
      = scanChunk now ⟨some f, now + SLIP_FRAME_COMPLETION_TIMEOUT_S, P⟩ rest := by
  rw [List.cons_append, scanChunk_cons, scanByte_END_open, scanChunk_append,
    scanChunk_noEND_some now f [] _ P hf]
  simp

theorem scanByte_packets (now : Nat) (fr : Option (List Nat)) (dl : Nat)
    (P : List (List Nat)) (b : Nat) :
    scanByte now ⟨fr, dl, P⟩ b
      = { scanByte now ⟨fr, dl, []⟩ b with
          packets := P ++ (scanByte now ⟨fr, dl, []⟩ b).packets } := by
  cases fr <;> by_cases hb : b = END <;> simp [scanByte, hb]
  split <;> simp

theorem scanChunk_packets (now : Nat) (fr : Option (List Nat)) (dl : Nat)
    (P : List (List Nat)) (d : List Nat) :
    scanChunk now ⟨fr, dl, P⟩ d
      = { scanChunk now ⟨fr, dl, []⟩ d with
          packets := P ++ (scanChunk now ⟨fr, dl, []⟩ d).packets } := by
  induction d generalizing fr dl P with
  | nil => simp [scanChunk_nil]
  | cons b d' ih =>
      rw [scanChunk_cons, scanChunk_cons]
      rw [scanByte_packets now fr dl P b]
      obtain ⟨fr1, dl1, q⟩ := scanByte now ⟨fr, dl, []⟩ b
      rw [ih fr1 dl1 (P ++ q), ih fr1 dl1 q]
      simp

/-- The in-progress frame accumulator never contains an `END` byte. -/
def frameOK : Option (List Nat) → Prop
  | none => True
  | some f => ∀ x ∈ f, x ≠ END

theorem scanByte_frameOK (now : Nat) (st : FrameState) (b : Nat)
    (h : frameOK st.curr_frame) : frameOK (scanByte now st b).curr_frame := by
  obtain ⟨fr, dl, P⟩ := st
  cases fr with
  | none =>
      by_cases hb : b = END
      · subst hb; rw [scanByte_END_open]; intro x hx; simp at hx
      · rw [scanByte_nonEND_none now dl P b hb]; trivial
  | some f =>
      by_cases hb : b = END
      · subst hb
        by_cases ht : dl < now
        · rw [scanByte_END_timeout now dl f P ht]; intro x hx; simp at hx
        · rw [scanByte_END_close now dl f P ht]; trivial
      · rw [scanByte_nonEND_some now dl f P b hb]
        intro x hx
        rcases List.mem_append.mp hx with h1 | h1
        · exact h x h1
        · simp at h1; subst h1; exact hb

theorem scanChunk_frameOK (now : Nat) (st : FrameState) (d : List Nat)
    (h : frameOK st.curr_frame) : frameOK (scanChunk now st d).curr_frame := by
  induction d generalizing st with
  | nil => exact h
  | cons b d' ih => exact ih _ (scanByte_frameOK now st b h)

/-- While a frame is open, its deadline is `now + timeout` (within one call
all deadline writes use the same `now`). -/
def dlOK (now : Nat) (st : FrameState) : Prop :=
  st.curr_frame.isSome = true →
    st.curr_frame_deadline = now + SLIP_FRAME_COMPLETION_TIMEOUT_S

theorem scanByte_dlOK (now : Nat) (st : FrameState) (b : Nat)
    (h : dlOK now st) : dlOK now (scanByte now st b) := by
  obtain ⟨fr, dl, P⟩ := st
  cases fr with
  | none =>
      by_cases hb : b = END
      · subst hb; rw [scanByte_END_open]; intro _; rfl
      · rw [scanByte_nonEND_none now dl P b hb]; exact h
  | some f =>
      by_cases hb : b = END
      · subst hb
        by_cases ht : dl < now
        · rw [scanByte_END_timeout now dl f P ht]; intro _; rfl
        · rw [scanByte_END_close now dl f P ht]; intro hs; simp at hs
      · rw [scanByte_nonEND_some now dl f P b hb]
        intro _
        exact h (by simp)

theorem scanChunk_dlOK (now : Nat) (st : FrameState) (d : List Nat)
    (h : dlOK now st) : dlOK now (scanChunk now st d) := by
  induction d generalizing st with
  | nil => exact h
  | cons b d' ih => exact ih _ (scanByte_dlOK now st b h)

/-! Flush lemmas -/

theorem flushLoop_append (acc : List (List Nat)) (ps qs : List (List Nat)) :
    flushLoop acc (ps ++ qs)
      = match flushLoop acc ps with
        | (m, r, some bad) => (m, r ++ qs, some bad)
        | (m, _, none) => flushLoop m qs := by
  induction ps generalizing acc with
  | nil => simp [flushLoop]
  | cons p ps' ih =>
      cases hd : decode p with
      | ok m => simp [flushLoop, hd, ih]
      | error e => simp [flushLoop, hd]

theorem flushLoop_acc (acc : List (List Nat)) (ps : List (List Nat)) :
    flushLoop acc ps
      = (acc ++ (flushLoop [] ps).1, (flushLoop [] ps).2.1, (flushLoop [] ps).2.2) := by
  induction ps generalizing acc with
  | nil => simp [flushLoop]
  | cons p ps' ih =>
      cases hd : decode p with
      | ok m =>
          rw [flushLoop, hd]
          show flushLoop (acc ++ [m]) ps' = _
          rw [ih (acc ++ [m])]
          rw [flushLoop, hd]
          show _ = (acc ++ (flushLoop [m] ps').1, (flushLoop [m] ps').2.1, (flushLoop [m] ps').2.2)
          rw [ih [m]]
          simp
      | error e => simp [flushLoop, hd]

theorem flushLoop_none_rest (acc : List (List Nat)) (ps : List (List Nat))
    (h : (flushLoop acc ps).2.2 = none) : (flushLoop acc ps).2.1 = [] := by
  induction ps generalizing acc with
  | nil => rfl
  | cons p ps' ih =>
      cases hd : decode p with
      | ok m =>
          rw [flushLoop, hd] at h ⊢
          exact ih _ h
      | error e =>
          rw [flushLoop, hd] at h
          simp at h

/-! Receive characterization and incremental equivalence -/

theorem flush_unfold (buf : List Nat) (P M : List (List Nat))
    (fr : Option (List Nat)) (d0 : Nat) :
    Driver.flush ⟨buf, P, M, fr, d0⟩
      = match flushLoop [] P with
        | (msgs, rest, some bad) => (.error bad, ⟨buf, rest, msgs, fr, d0⟩)
        | (msgs, rest, none) => (.ok msgs, ⟨buf, rest, M, fr, d0⟩) := rfl

theorem receive_unfold (now : Nat) (buf : List Nat) (P M : List (List Nat))
    (fr : Option (List Nat)) (d0 : Nat) (data : List Nat) (hd : data ≠ []) :
    Driver.receive now ⟨buf, P, M, fr, d0⟩ data
      = Driver.flush ⟨restoreBuf (scanChunk now ⟨fr, d0, P⟩ (buf ++ data)).curr_frame,
                      (scanChunk now ⟨fr, d0, P⟩ (buf ++ data)).packets,
                      M, none,
                      (scanChunk now ⟨fr, d0, P⟩ (buf ++ data)).curr_frame_deadline⟩ := by
  cases data with
  | nil => exact absurd rfl hd
  | cons c cs => rfl

theorem receiveCarry_unfold (now : Nat) (buf : List Nat) (P M : List (List Nat))
    (fr : Option (List Nat)) (d0 : Nat) (data : List Nat) :
    Driver.receiveCarry now ⟨buf, P, M, fr, d0⟩ data
      = Driver.flush ⟨[], (scanChunk now ⟨fr, d0, P⟩ data).packets, M,
                      (scanChunk now ⟨fr, d0, P⟩ data).curr_frame,
                      (scanChunk now ⟨fr, d0, P⟩ data).curr_frame_deadline⟩ := rfl

theorem receive_cons (now d0 : Nat) (buf : List Nat) (b : Nat) (rest : List Nat)
    (msgs : List (List Nat)) (st' : DriverState)
    (h : Driver.receive now ⟨buf, [], [], none, d0⟩ (b :: rest) = (.ok msgs, st')) :
    ∃ ms1 buf1 dl1 ms2,
      Driver.receive now ⟨buf, [], [], none, d0⟩ [b] = (.ok ms1, ⟨buf1, [], [], none, dl1⟩) ∧
      Driver.receive now ⟨buf1, [], [], none, dl1⟩ rest = (.ok ms2, st') ∧
      msgs = ms1 ++ ms2 := by
  obtain ⟨⟨frb, dlb, Pb⟩, hscb⟩ :
      ∃ sc, scanChunk now ⟨none, d0, []⟩ (buf ++ [b]) = sc := ⟨_, rfl⟩
  have hfrOK : frameOK frb := by
    have h0 := scanChunk_frameOK now ⟨none, d0, []⟩ (buf ++ [b]) trivial
    rw [hscb] at h0
    exact h0
  have hdlb : frb.isSome = true → dlb = now + SLIP_FRAME_COMPLETION_TIMEOUT_S := by
    have h0 := scanChunk_dlOK now ⟨none, d0, []⟩ (buf ++ [b]) (fun hs => by simp at hs)
    rw [hscb] at h0
    exact h0
  obtain ⟨⟨frR, dlR, PR⟩, hscR⟩ :
      ∃ sc, scanChunk now ⟨frb, dlb, []⟩ rest = sc := ⟨_, rfl⟩
  obtain ⟨⟨m1, r1, e1⟩, hFb⟩ : ∃ r, flushLoop [] Pb = r := ⟨_, rfl⟩
  obtain ⟨⟨M2, R2, E2⟩, hF2⟩ : ∃ r, flushLoop [] PR = r := ⟨_, rfl⟩
  have hscall : scanChunk now ⟨none, d0, []⟩ (buf ++ b :: rest)
      = ⟨frR, dlR, Pb ++ PR⟩ := by
    rw [List.append_cons, scanChunk_append, hscb, scanChunk_packets, hscR]
  have hall : Driver.receive now ⟨buf, [], [], none, d0⟩ (b :: rest)
      = Driver.flush ⟨restoreBuf frR, Pb ++ PR, [], none, dlR⟩ := by
    rw [receive_unfold now buf [] [] none d0 (b :: rest) (List.cons_ne_nil b rest), hscall]
  have h1 : Driver.receive now ⟨buf, [], [], none, d0⟩ [b]
      = Driver.flush ⟨restoreBuf frb, Pb, [], none, dlb⟩ := by
    rw [receive_unfold now buf [] [] none d0 [b] (List.cons_ne_nil b []), hscb]
  cases e1 with
  | some bad =>
      exfalso
      rw [hall, flush_unfold, flushLoop_append, hFb] at h
      simp at h
  | none =>
      have hr1 : r1 = [] := by
        have h0 := flushLoop_none_rest [] Pb (by rw [hFb])
        rw [hFb] at h0
        exact h0
      subst hr1
      rw [hall, flush_unfold, flushLoop_append, hFb] at h
      dsimp only at h
      rw [flushLoop_acc m1 PR, hF2] at h
      dsimp only at h
      cases E2 with
      | some bad2 => exfalso; simp at h
      | none =>
          dsimp only at h
          simp only [Prod.mk.injEq, Except.ok.injEq] at h
          obtain ⟨hmsgs, hst'⟩ := h
          refine ⟨m1, restoreBuf frb, dlb, M2, ?_, ?_, hmsgs.symm⟩
          · rw [h1, flush_unfold, hFb]
          · cases rest with
            | nil =>
                rw [scanChunk_nil] at hscR
                injection hscR with e1 e2 e3
                subst e1; subst e2
                have hPR : PR = [] := e3.symm
                subst hPR
                rw [flushLoop] at hF2
                injection hF2 with f1 f2
                injection f2 with f2 f3
                subst f1; subst f2
                rw [← hst']
                cases frb with
                | none => rfl
                | some f => rfl
            | cons c cs =>
                have hbufR : scanChunk now ⟨none, dlb, []⟩ (restoreBuf frb ++ (c :: cs))
                    = ⟨frR, dlR, PR⟩ := by
                  cases frb with
                  | none =>
                      rw [restoreBuf]
                      simp only [List.nil_append]
                      exact hscR
                  | some f =>
                      rw [restoreBuf, scanChunk_restore now f (c :: cs) dlb [] hfrOK,
                        ← hdlb rfl]
                      exact hscR
                rw [receive_unfold now (restoreBuf frb) [] [] none dlb (c :: cs)
                  (List.cons_ne_nil c cs), hbufR, flush_unfold, hF2, ← hst']

theorem feedBytes_eq_receive (now : Nat) (data : List Nat) :
    ∀ (buf : List Nat) (d0 : Nat) (msgs : List (List Nat)) (st' : DriverState),
      Driver.receive now ⟨buf, [], [], none, d0⟩ data = (.ok msgs, st') →
      feedBytes now ⟨buf, [], [], none, d0⟩ data = (.ok msgs, st') := by
  induction data with
  | nil =>
      intro buf d0 msgs st' h
      have h0 : Driver.receive now ⟨buf, [], [], none, d0⟩ []
          = (.ok [], ⟨buf, [], [], none, d0⟩) := rfl
      rw [h0] at h
      simp only [Prod.mk.injEq, Except.ok.injEq] at h
      obtain ⟨h1, h2⟩ := h
      subst h1
      subst h2
      rfl
  | cons b rest ih =>
      intro buf d0 msgs st' h
      obtain ⟨ms1, buf1, dl1, ms2, h1, h2, h3⟩ := receive_cons now d0 buf b rest msgs st' h
      rw [feedBytes, h1]
      dsimp only
      rw [ih buf1 dl1 ms2 st' h2]
      dsimp only
      rw [h3]

/-- C4 counterexample:  For the chunk `C0 41 C0 C0 DB C0` (a valid frame
followed by an invalid one), the one-shot receive leaves the recovered
message `b'A'` in the error store while the byte-by-byte run has already
returned it and stores nothing, so the final Driver states differ. -/
theorem C4_counterexample :
    (Driver.receive 0 freshDriver [END, 0x41, END, END, ESC, END]).2.messages = [[0x41]] ∧
    (feedBytes 0 freshDriver [END, 0x41, END, END, ESC, END]).2.messages = [] :=
  ⟨rfl, rfl⟩

/-- C4 amended:  For every byte sequence whose one-shot receive on a
fresh Driver succeeds without a ProtocolError, feeding it one byte per
receive call at the same time instant yields the same decoded messages in
the same order and the same Driver state afterwards. -/
theorem C4_amended_incremental (now : Nat) (data : List Nat)
    (msgs : List (List Nat)) (st' : DriverState)
    (h : Driver.receive now freshDriver data = (.ok msgs, st')) :
    feedBytes now freshDriver data = (.ok msgs, st') :=
  feedBytes_eq_receive now data [] 0 msgs st' h

theorem C4_amended_incremental_witness :
    Driver.receive 0 freshDriver [END, 0x41, END]
      = (.ok [[0x41]], ⟨[], [], [], none, 3⟩) ∧
    feedBytes 0 freshDriver [END, 0x41, END]
      = (.ok [[0x41]], ⟨[], [], [], none, 3⟩) :=
  ⟨rfl, C4_amended_incremental 0 [END, 0x41, END] [[0x41]] ⟨[], [], [], none, 3⟩ rfl⟩

/-- C5:  The resync scenario from the claim: `receive(b'\xc0')` at t=5,
then `receive(b'\xc0' + b'A' + b'\xc0')` at t=10 (past the 3s timeout).
Because the in-progress frame is restored into the buffer and re-scanned,
the deadline is reset to the current call's time, so the late `FRAME_END`
closes an (empty) frame instead of being treated as a new opener: the code
returns `[b'']` and discards the payload `b'A'`, contradicting the claim
that only the second frame's payload is produced. -/
theorem C5_resync_lost :
    (Driver.receive 5 freshDriver [END]).2 = ⟨[END], [], [], none, 8⟩ ∧
    Driver.receive 10 (Driver.receive 5 freshDriver [END]).2 [END, 0x41, END]
      = (.ok [[]], ⟨[END], [], [], none, 13⟩) :=
  ⟨rfl, rfl⟩

/-- C6 counterexample:  Re-prepending `END` + partial bytes to the buffer
is *not* observably equivalent to carrying the accumulator and its original
deadline forward: with a frame opened at t=5 (deadline 8) and the data
`C0 41 C0` arriving at t=10, the explicit-carry decoder resyncs and
produces `[b'A']`, while the buffer round-trip resets the deadline and
produces `[b'']`. -/
theorem C6_counterexample :
    (Driver.receive 10 ⟨[END], [], [], none, 8⟩ [END, 0x41, END]).1
      ≠ (Driver.receiveCarry 10 ⟨[], [], [], some [], 8⟩ [END, 0x41, END]).1 := by
  have hA : (Driver.receive 10 ⟨[END], [], [], none, 8⟩ [END, 0x41, END]).1
      = Except.ok [([] : List Nat)] := rfl
  have hB : (Driver.receiveCarry 10 ⟨[], [], [], some [], 8⟩ [END, 0x41, END]).1
      = Except.ok [[0x41]] := rfl
  rw [hA, hB]
  simp

/-- C6 amended:  The buffer round-trip is equivalent to carrying the
accumulator forward explicitly *with the deadline reset to the current
call's time* (`now + timeout`): for any state holding a restored frame
`END :: f` in its buffer, `receive` returns exactly what the explicit-carry
variant returns from the carried state, with the in-progress frame moved
back into the buffer representation. -/
theorem C6_amended_carry_equiv (now d0 : Nat) (f : List Nat)
    (P M : List (List Nat)) (data : List Nat)
    (hf : ∀ x ∈ f, x ≠ END) (hd : data ≠ []) :
    Driver.receive now ⟨END :: f, P, M, none, d0⟩ data
      = ((Driver.receiveCarry now
            ⟨[], P, M, some f, now + SLIP_FRAME_COMPLETION_TIMEOUT_S⟩ data).1,
         ⟨restoreBuf (Driver.receiveCarry now
            ⟨[], P, M, some f, now + SLIP_FRAME_COMPLETION_TIMEOUT_S⟩ data).2.curr_frame,
          (Driver.receiveCarry now
            ⟨[], P, M, some f, now + SLIP_FRAME_COMPLETION_TIMEOUT_S⟩ data).2.packets,
          (Driver.receiveCarry now
            ⟨[], P, M, some f, now + SLIP_FRAME_COMPLETION_TIMEOUT_S⟩ data).2.messages,
          none,
          (Driver.receiveCarry now
            ⟨[], P, M, some f, now + SLIP_FRAME_COMPLETION_TIMEOUT_S⟩ data).2.curr_frame_deadline⟩) := by
  obtain ⟨⟨frc, dlc, Pc⟩, hsc⟩ :
      ∃ sc, scanChunk now ⟨some f, now + SLIP_FRAME_COMPLETION_TIMEOUT_S, P⟩ data = sc :=
    ⟨_, rfl⟩
  have hscL : scanChunk now ⟨none, d0, P⟩ ((END :: f) ++ data) = ⟨frc, dlc, Pc⟩ := by
    rw [scanChunk_restore now f data d0 P hf]
    exact hsc
  rw [receive_unfold now (END :: f) P M none d0 data hd, hscL,
    receiveCarry_unfold, hsc]
  dsimp only
  obtain ⟨⟨mm, rr, ee⟩, hFL⟩ : ∃ r, flushLoop [] Pc = r := ⟨_, rfl⟩
  simp only [flush_unfold, hFL]
  cases ee <;> rfl

/-! Error recovery (C3) and out-of-frame noise (C8) -/

theorem scanChunk_frame (now d0 : Nat) (P : List (List Nat)) (p rest : List Nat)
    (hp : ∀ x ∈ p, x ≠ END) :
    scanChunk now ⟨none, d0, P⟩ (([END] ++ p ++ [END]) ++ rest)
      = scanChunk now ⟨none, now + SLIP_FRAME_COMPLETION_TIMEOUT_S, P ++ [p]⟩ rest := by
  have hre : ([END] ++ p ++ [END]) ++ rest = (END :: p) ++ (END :: rest) := by
    simp
  rw [hre, scanChunk_restore now p (END :: rest) d0 P hp, scanChunk_cons,
    scanByte_END_close now _ p P (by omega)]

theorem scanChunk_frame_last (now d0 : Nat) (P : List (List Nat)) (p : List Nat)
    (hp : ∀ x ∈ p, x ≠ END) :
    scanChunk now ⟨none, d0, P⟩ ([END] ++ p ++ [END])
      = ⟨none, now + SLIP_FRAME_COMPLETION_TIMEOUT_S, P ++ [p]⟩ := by
  have hre : [END] ++ p ++ [END] = ([END] ++ p ++ [END]) ++ [] := by simp
  rw [hre, scanChunk_frame now d0 P p [] hp, scanChunk_nil]

theorem scanChunk_noise (now d0 : Nat) (P : List (List Nat)) (noise : List Nat)
    (h : ∀ x ∈ noise, x ≠ END) :
    scanChunk now ⟨none, d0, P⟩ noise = ⟨none, d0, P⟩ := by
  induction noise with
  | nil => rfl
  | cons b ns ih =>
      rw [scanChunk_cons, scanByte_nonEND_none now d0 P b (h b (List.mem_cons_self _ _))]
      exact ih (fun x hx => h x (List.mem_cons_of_mem _ hx))

theorem flushLoop_bad_invalid (ps : List (List Nat)) :
    ∀ (acc m r : List (List Nat)) (bad : List Nat),
      flushLoop acc ps = (m, r, some bad) → is_valid bad = false := by
  induction ps with
  | nil =>
      intro acc m r bad h
      simp [flushLoop] at h
  | cons p ps' ih =>
      intro acc m r bad h
      rw [flushLoop] at h
      cases hd : decode p with
      | ok mm =>
          rw [hd] at h
          exact ih _ _ _ _ h
      | error ee =>
          rw [hd] at h
          dsimp only at h
          simp only [Prod.mk.injEq, Option.some.injEq] at h
          obtain ⟨-, -, hbad⟩ := h
          subst hbad
          by_cases hv : is_valid p = true
          · rw [decode, if_pos hv] at hd
            exact absurd hd (by simp)
          · exact Bool.not_eq_true _ ▸ (by simpa using hv)

theorem flush_error_invalid (st : DriverState) (e : List Nat) (st' : DriverState)
    (h : Driver.flush st = (.error e, st')) : is_valid e = false := by
  obtain ⟨buf, P, M, fr, d0⟩ := st
  rw [flush_unfold] at h
  obtain ⟨⟨mm, rr, ee⟩, hFL⟩ : ∃ r, flushLoop [] P = r := ⟨_, rfl⟩
  rw [hFL] at h
  cases ee with
  | none => simp at h
  | some bad =>
      dsimp only at h
      simp only [Prod.mk.injEq, Except.error.injEq] at h
      obtain ⟨h1, -⟩ := h
      subst h1
      exact flushLoop_bad_invalid P [] mm rr bad hFL

/-- C8:  (a) Bytes scanned while between frames that are not `FRAME_END`
are discarded without any effect: prepending them to a chunk received
while between frames leaves the whole `receive` result (messages, error,
and final state) unchanged, so they never appear in any message of that or
any later call.  (b) The framing scan itself never fails: when `receive`
raises a `ProtocolError`, the carried packet is one that failed `is_valid`
at decode time. -/
theorem C8_noise_discarded_and_framing_never_fails :
    (∀ (now d0 : Nat) (P M : List (List Nat)) (noise data : List Nat),
        (∀ x ∈ noise, x ≠ END) →
        Driver.receive now ⟨[], P, M, none, d0⟩ (noise ++ data)
          = Driver.receive now ⟨[], P, M, none, d0⟩ data) ∧
    (∀ (now : Nat) (st : DriverState) (data e : List Nat) (st' : DriverState),
        Driver.receive now st data = (.error e, st') → is_valid e = false) := by
  constructor
  · intro now d0 P M noise data hn
    cases data with
    | nil =>
        cases noise with
        | nil => rfl
        | cons c cs =>
            rw [List.append_nil,
              receive_unfold now [] P M none d0 (c :: cs) (List.cons_ne_nil c cs),
              List.nil_append, scanChunk_noise now d0 P (c :: cs) hn]
            rfl
    | cons c cs =>
        rw [receive_unfold now [] P M none d0 (noise ++ c :: cs) (by simp),
          receive_unfold now [] P M none d0 (c :: cs) (List.cons_ne_nil c cs),
          List.nil_append, List.nil_append, scanChunk_append,
          scanChunk_noise now d0 P noise hn]
  · intro now st data e st' h
    by_cases hd : data = []
    · subst hd
      rw [Driver.receive, if_pos rfl] at h
      exact flush_error_invalid st e st' h
    · obtain ⟨buf, P, M, fr, d0⟩ := st
      rw [receive_unfold now buf P M fr d0 data hd] at h
      exact flush_error_invalid _ e st' h

theorem C8_noise_discarded_and_framing_never_fails_witness :
    Driver.receive 0 ⟨[], [], [], none, 0⟩ ([0x41, 0x42] ++ [END, 0x43, END])
      = Driver.receive 0 ⟨[], [], [], none, 0⟩ [END, 0x43, END] ∧
    is_valid [ESC] = false :=
  ⟨C8_noise_discarded_and_framing_never_fails.1 0 0 [] [] [0x41, 0x42]
      [END, 0x43, END] (by decide),
   C8_noise_discarded_and_framing_never_fails.2 0 freshDriver [END, ESC, END]
      [ESC] ⟨[], [], [], none, 3⟩ rfl⟩

/-- C3:  Three framed packets `[P1 valid, P2 invalid, P3 valid]`
delivered to a fresh Driver in one chunk: the `receive` call raises a
`ProtocolError` carrying `P2` after decoding `P1` (which is stored in the
error-recovery store); the `messages` accessor then returns
`[decode(P1)]` exactly once (a second read returns `[]`); a subsequent
`flush` returns `[decode(P3)]`. -/
theorem C3_error_recovery (now : Nat) (P1 P2 P3 : List Nat)
    (h1 : ∀ x ∈ P1, x ≠ END) (h2 : ∀ x ∈ P2, x ≠ END) (h3 : ∀ x ∈ P3, x ≠ END)
    (v1 : is_valid P1 = true) (v2 : is_valid P2 = false) (v3 : is_valid P3 = true) :
    Driver.receive now freshDriver
        (([END] ++ P1 ++ [END]) ++ (([END] ++ P2 ++ [END]) ++ ([END] ++ P3 ++ [END])))
      = (.error P2, ⟨[], [P3], [unescape P1], none,
          now + SLIP_FRAME_COMPLETION_TIMEOUT_S⟩) ∧
    Driver.readMessages ⟨[], [P3], [unescape P1], none,
          now + SLIP_FRAME_COMPLETION_TIMEOUT_S⟩
      = ([unescape P1], ⟨[], [P3], [], none, now + SLIP_FRAME_COMPLETION_TIMEOUT_S⟩) ∧
    Driver.readMessages ⟨[], [P3], [], none, now + SLIP_FRAME_COMPLETION_TIMEOUT_S⟩
      = ([], ⟨[], [P3], [], none, now + SLIP_FRAME_COMPLETION_TIMEOUT_S⟩) ∧
    Driver.flush ⟨[], [P3], [], none, now + SLIP_FRAME_COMPLETION_TIMEOUT_S⟩
      = (.ok [unescape P3], ⟨[], [], [], none,
          now + SLIP_FRAME_COMPLETION_TIMEOUT_S⟩) := by
  have hd1 : decode P1 = .ok (unescape P1) := by rw [decode, if_pos v1]
  have hd2 : decode P2 = .error P2 := by
    rw [decode, if_neg]
    simp [v2]
  have hd3 : decode P3 = .ok (unescape P3) := by rw [decode, if_pos v3]
  refine ⟨?_, rfl, rfl, ?_⟩
  · simp only [freshDriver]
    rw [receive_unfold now [] [] [] none 0 _ (by simp), List.nil_append,
      scanChunk_frame now 0 [] P1 _ h1, scanChunk_frame now _ _ P2 _ h2,
      scanChunk_frame_last now _ _ P3 h3]
    dsimp only
    rw [flush_unfold]
    simp only [List.nil_append, flushLoop, hd1, hd2]
    rfl
  · rw [flush_unfold]
    simp only [flushLoop, hd3, List.nil_append]

theorem C3_error_recovery_witness :
    Driver.receive 0 freshDriver
        (([END] ++ [0x41] ++ [END]) ++ (([END] ++ [ESC] ++ [END])
          ++ ([END] ++ [0x42] ++ [END])))
      = (.error [ESC], ⟨[], [[0x42]], [unescape [0x41]], none, 3⟩) ∧
    Driver.readMessages ⟨[], [[0x42]], [unescape [0x41]], none, 3⟩
      = ([unescape [0x41]], ⟨[], [[0x42]], [], none, 3⟩) ∧
    Driver.readMessages ⟨[], [[0x42]], [], none, 3⟩
      = ([], ⟨[], [[0x42]], [], none, 3⟩) ∧
    Driver.flush ⟨[], [[0x42]], [], none, 3⟩
      = (.ok [unescape [0x42]], ⟨[], [], [], none, 3⟩) :=
  C3_error_recovery 0 [0x41] [ESC] [0x42] (by decide) (by decide) (by decide)
    (by decide) (by decide) (by decide)

/-! SlipWrapper (slipwrapper.py)

The wrapped byte stream is modelled as the list of successive
`recv_bytes()` results, each paired with the value `read_timed_out()`
would report if that chunk is empty; an exhausted list models
`recv_bytes()` returning empty with `read_timed_out()` false (permanent
close). -/

structure WrapperState where
  stream : List (List Nat × Bool)
  driver : DriverState
  messages : List (List Nat)
  protocol_error : Option (List Nat)
  flush_needed : Bool
  stream_closed : Bool
deriving DecidableEq

/-- The `while not self._messages and not self._stream_closed` loop of
`SlipWrapper.recv_msg` (lines 138-168): flush if needed, otherwise read a
chunk and feed it to the Driver; a caught `ProtocolError` stores the error
together with the Driver's recovered messages and exits the loop. -/
def recvLoop (now : Nat) (st : WrapperState) : WrapperState :=
  if st.messages ≠ [] ∨ st.stream_closed then st
  else if hF : st.flush_needed then
    match Driver.flush st.driver with
    | (.ok msgs, d') =>
        recvLoop now { st with flush_needed := false, driver := d',
                               messages := st.messages ++ msgs }
    | (.error bad, d') =>
        { st with flush_needed := false,
                  driver := (Driver.readMessages d').2,
                  messages := st.messages ++ (Driver.readMessages d').1,
                  protocol_error := some bad }
  else
    match hs : st.stream with
    | [] => { st with stream_closed := true }
    | (data, timedOut) :: rest =>
        if data = [] then
          if timedOut then { st with stream := rest }
          else { st with stream := rest, stream_closed := true }
        else
          match Driver.receive now st.driver data with
          | (.ok msgs, d') =>
              recvLoop now { st with stream := rest, driver := d',
                                     messages := st.messages ++ msgs }
          | (.error bad, d') =>
              { st with stream := rest,
                        driver := (Driver.readMessages d').2,
                        messages := st.messages ++ (Driver.readMessages d').1,
                        protocol_error := some bad }
termination_by 2 * st.stream.length + (if st.flush_needed then 1 else 0)
decreasing_by
  · simp [hF]
  · simp [hs, hF]

/-- Method `SlipWrapper.recv_msg`: pending message first, then a pending
`ProtocolError` (re-raised, marking a flush), then the read loop, then the
empty sentinel `b''`. -/
def recv_msg (now : Nat) (st : WrapperState) :
    Except (List Nat) (List Nat) × WrapperState :=
  match st.messages with
  | m :: rest => (.ok m, { st with messages := rest })
  | [] =>
      match st.protocol_error with
      | some e => (.error e, { st with protocol_error := none, flush_needed := true })
      | none =>
          let st1 := recvLoop now st
          match st1.messages with
          | m :: rest => (.ok m, { st1 with messages := rest })
          | [] =>
              match st1.protocol_error with
              | some e => (.error e, { st1 with protocol_error := none,
                                                flush_needed := true })
              | none => (.ok [], st1)

/-- Generator `SlipWrapper.__iter__`: yields messages until `recv_msg` returns the
empty sentinel `b''`; a `ProtocolError` propagates out of the generator and
likewise ends the iteration.  `fuel` bounds the number of iterations. -/
def iterMsgs (now : Nat) : Nat → WrapperState → List (List Nat)
  | 0, _ => []
  | fuel + 1, st =>
      match recv_msg now st with
      | (.ok [], _) => []
      | (.ok m, st') => m :: iterMsgs now fuel st'
      | (.error _, _) => []

/-! C9 and C10 -/

theorem recv_msg_closed (now : Nat) (s : List (List Nat × Bool))
    (d : DriverState) (fn : Bool) :
    recv_msg now ⟨s, d, [], none, fn, true⟩ = (.ok [], ⟨s, d, [], none, fn, true⟩) := by
  have hloop : recvLoop now ⟨s, d, [], none, fn, true⟩ = ⟨s, d, [], none, fn, true⟩ := by
    unfold recvLoop
    simp
  simp [recv_msg, hloop]

/-- C9:  When `recv_bytes` returns empty and `read_timed_out()` is false
with no messages queued, `recv_msg` returns the empty sentinel `b''` (not an
error) and marks the stream closed without consuming more reads; every
later `recv_msg` call on a closed stream returns `b''` with the state
unchanged (the stream is not read again); iteration over such a wrapper
terminates (yields nothing), for every fuel bound. -/
theorem C9_close_sentinel :
    (∀ (now : Nat) (rest : List (List Nat × Bool)) (d : DriverState),
        recv_msg now ⟨([], false) :: rest, d, [], none, false, false⟩
          = (.ok [], ⟨rest, d, [], none, false, true⟩)) ∧
    (∀ (now : Nat) (s : List (List Nat × Bool)) (d : DriverState) (fn : Bool),
        recv_msg now ⟨s, d, [], none, fn, true⟩
          = (.ok [], ⟨s, d, [], none, fn, true⟩)) ∧
    (∀ (now fuel : Nat) (s : List (List Nat × Bool)) (d : DriverState) (fn : Bool),
        iterMsgs now fuel ⟨s, d, [], none, fn, true⟩ = []) := by
  refine ⟨?_, recv_msg_closed, ?_⟩
  · intro now rest d
    have hloop : recvLoop now ⟨([], false) :: rest, d, [], none, false, false⟩
        = ⟨rest, d, [], none, false, true⟩ := by
      unfold recvLoop
      simp
    simp [recv_msg, hloop]
  · intro now fuel s d fn
    cases fuel with
    | zero => rfl
    | succ n => simp [iterMsgs, recv_msg_closed now s d fn]

theorem receive_two_ENDs (now d0 : Nat) (M : List (List Nat)) :
    Driver.receive now ⟨[], [], M, none, d0⟩ [END, END]
      = (.ok [[]], ⟨[], [], M, none, now + SLIP_FRAME_COMPLETION_TIMEOUT_S⟩) := by
  rw [receive_unfold now [] [] M none d0 [END, END] (by simp), List.nil_append]
  have hsc : scanChunk now ⟨none, d0, []⟩ [END, END]
      = ⟨none, now + SLIP_FRAME_COMPLETION_TIMEOUT_S, [[]]⟩ := by
    have h0 := scanChunk_frame_last now d0 [] [] (by simp)
    simpa using h0
  rw [hsc]
  dsimp only
  rw [flush_unfold]
  have hdec : decode [] = .ok [] := rfl
  simp only [flushLoop, hdec, List.nil_append]
  rfl

/-- C10:  With the Driver between frames, two adjacent `FRAME_END` bytes
enqueue a zero-length packet which decodes to the empty message `b''`; and
since `b''` is also the wrapper's end-of-stream sentinel, iteration over a
`SlipWrapper` stops upon receiving such an empty frame even though the
underlying stream is still open and has more data queued. -/
theorem C10_empty_frame_stops_iteration :
    (∀ (now d0 : Nat) (M : List (List Nat)),
        Driver.receive now ⟨[], [], M, none, d0⟩ [END, END]
          = (.ok [[]], ⟨[], [], M, none, now + SLIP_FRAME_COMPLETION_TIMEOUT_S⟩)) ∧
    decode [] = .ok [] ∧
    (∀ (now fuel : Nat) (rest : List (List Nat × Bool)),
        iterMsgs now fuel
          ⟨([END, END], false) :: rest, freshDriver, [], none, false, false⟩ = []) := by
  refine ⟨receive_two_ENDs, rfl, ?_⟩
  intro now fuel rest
  cases fuel with
  | zero => rfl
  | succ n =>
      have hrecv := receive_two_ENDs now 0 []
      have hloop : recvLoop now
          ⟨([END, END], false) :: rest, freshDriver, [], none, false, false⟩
          = ⟨rest, ⟨[], [], [], none, now + SLIP_FRAME_COMPLETION_TIMEOUT_S⟩,
              [[]], none, false, false⟩ := by
        unfold recvLoop
        simp only [freshDriver]
        simp [hrecv]
        unfold recvLoop
        simp
      simp [iterMsgs, recv_msg, hloop]

theorem C6_amended_carry_equiv_witness :
    Driver.receive 0 ⟨[END, 0x41], [], [], none, 7⟩ [0x42, END]
      = ((Driver.receiveCarry 0 ⟨[], [], [], some [0x41], 3⟩ [0x42, END]).1,
         ⟨restoreBuf (Driver.receiveCarry 0 ⟨[], [], [], some [0x41], 3⟩
            [0x42, END]).2.curr_frame,
          (Driver.receiveCarry 0 ⟨[], [], [], some [0x41], 3⟩ [0x42, END]).2.packets,
          (Driver.receiveCarry 0 ⟨[], [], [], some [0x41], 3⟩ [0x42, END]).2.messages,
          none,
          (Driver.receiveCarry 0 ⟨[], [], [], some [0x41], 3⟩
            [0x42, END]).2.curr_frame_deadline⟩) :=
  C6_amended_carry_equiv 0 7 [0x41] [] [] [0x42, END] (by decide) (by decide)
